import Mathlib

/-!
Verification of the GPS time-setting program (`gps_time.c`).

The program reads bytes from a serial GPS device, frames NMEA sentences
(`process`), and parses `GPRMC` sentences (`gps_line`), using a comma
splitter (`crack`) and a fixed-width numeric decoder (`getvalue`).
Bytes are modelled as `Nat` values (the C `char` values; NMEA data is
ASCII, and `char` signedness is platform-defined, so we take the
unsigned reading).  C strings are modelled as `List Nat` without the
terminating NUL; reading a buffer as a C string is `cstr` (truncation
at the first zero byte).
-/

namespace GpsTime

/-- C `isspace` on ASCII byte values: space, TAB, LF, VT, FF, CR. -/
def isspaceB (b : Nat) : Bool :=
  b = 32 || b = 9 || b = 10 || b = 11 || b = 12 || b = 13

/-- C `isdigit` on ASCII byte values. -/
def isdigitB (b : Nat) : Bool := 48 ≤ b && b ≤ 57

/-- Byte values of an ASCII string literal. -/
def strBytes (s : String) : List Nat := s.toList.map Char.toNat

/-- Reading a byte buffer as a C string: content up to the first NUL. -/
def cstr (l : List Nat) : List Nat := l.takeWhile (fun b => b != 0)

/-! ## SentenceFramer: `process` (gps_time.c lines 182-225)

The C function keeps two `static` variables (`state`, `inpos`) and the
global buffer `input`; we model them as an explicit state record.  A call
that reaches `gps_line()` is modelled by emitting `some buffer`. -/

/-- `#define BUFFER_SIZE 512` — size of the capture buffer `input`. -/
def BUFFER_SIZE : Nat := 512

def ST_WAITNL : Nat := 0
def ST_WAITDL : Nat := 1
def ST_CAPTURE : Nat := 2

/-- Framer state: the C `static int state` plus the captured bytes
(`input[0..inpos-1]`). -/
structure FrSt where
  st : Nat
  buf : List Nat
deriving DecidableEq

/-- Initial framer state: `state = ST_WAITNL`, `inpos = 0`. -/
def initFr : FrSt := ⟨ST_WAITNL, []⟩

/-- One call of `process(ch)`.  Returns the new state and `some sentence`
when the call invokes `gps_line()` (the emitted candidate sentence is the
buffer content; the C code appends the NUL terminator which our model of
C strings omits). -/
def process (s : FrSt) (ch : Nat) : FrSt × Option (List Nat) :=
  if ch = 10 || ch = 13 then
    -- saw CR/NL: process a line if we have one, then wait for '$'
    if s.st = ST_CAPTURE then (⟨ST_WAITDL, s.buf⟩, some s.buf)
    else (⟨ST_WAITDL, s.buf⟩, none)
  else if s.st = ST_WAITDL then
    -- C sets inpos = 0 here before dispatching on the character
    if ch = 36 then (⟨ST_CAPTURE, []⟩, none) else (⟨ST_WAITNL, []⟩, none)
  else if s.st ≠ ST_CAPTURE then (s, none)
  else if BUFFER_SIZE - 2 ≤ s.buf.length then
    -- `if (inpos >= sizeof(input) - 2)`: line too long, dump it
    (⟨ST_WAITNL, s.buf⟩, none)
  else (⟨ST_CAPTURE, s.buf ++ [ch]⟩, none)

/-- Feed a list of bytes through the framer (the read loop of `main`),
collecting the emitted candidate sentences in order. -/
def runFramer : List Nat → FrSt → FrSt × List (List Nat)
  | [], s => (s, [])
  | b :: rest, s =>
    let p := process s b
    let r := runFramer rest p.1
    (r.1, p.2.toList ++ r.2)

/-! ## FieldSplitter: `crack` (gps_time.c lines 318-339) -/

/-- `strchr(strp, ',')` followed by `*cp++ = '\0'`: the field up to the
first comma, and `some` remainder after the comma when one exists. -/
def splitComma : List Nat → List Nat × Option (List Nat)
  | [] => ([], none)
  | c :: t =>
    if c = 44 then ([], some t)
    else
      let r := splitComma t
      (c :: r.1, r.2)

/-- The `for (n = 0; n < maxargs; n++)` loop of `crack`, starting at
iteration `n` with `fuel = maxargs - n` iterations left.  Returns the
value `crack` returns together with the fields stored in `argv` from
index `n` on.  When the loop exits with `n = maxargs` the C code executes
`return (n + 1)`. -/
def crackGo : List Nat → Nat → Nat → Nat × List (List Nat)
  | _, n, 0 => (n + 1, [])
  | strp, n, fuel + 1 =>
    let s1 := strp.dropWhile isspaceB
    if s1.isEmpty then (n, [])
    else
      let r := splitComma s1
      match r.2 with
      | none => (n + 1, [r.1])
      | some rest =>
        if rest.isEmpty then (n + 1, [r.1])
        else
          let q := crackGo rest (n + 1) fuel
          (q.1, r.1 :: q.2)

/-- `crack(strp, argv, maxargs)`: returns the C return value and the
fields stored into `argv`.  A NULL or empty input returns zero fields. -/
def crack (strp : List Nat) (maxargs : Nat) : Nat × List (List Nat) :=
  if strp.isEmpty then (0, []) else crackGo strp 0 maxargs

/-! ## FixedWidthDecoder: `getvalue` (gps_time.c lines 344-352) -/

/-- The `while (ndigits-- && isdigit(*strp))` loop with accumulator `v`.
Reading past the end of the list models reading the NUL terminator,
which is not a digit. -/
def getvalueGo : List Nat → Nat → Nat → Nat
  | _, 0, v => v
  | [], _ + 1, v => v
  | c :: t, n + 1, v =>
    if isdigitB c then getvalueGo t n (v * 10 + (c - 48)) else v

/-- `getvalue(strp, ndigits)`. -/
def getvalue (strp : List Nat) (ndigits : Nat) : Nat := getvalueGo strp ndigits 0

/-! ## `strtol(s, NULL, 16)` (used at gps_time.c line 265)

Standard C semantics for base 16: skip leading whitespace, optional
sign, optional `0x`/`0X` prefix, then accumulate hexadecimal digits
(case-insensitive), stopping at the first non-hex character; if there
are no digits the result is 0.  `LONG_MAX` clamping on overflow is not
modelled: the parsed value is only ever compared with an XOR checksum
below 256, and a clamped value and its unclamped counterpart are both
distinct from any such checksum, so the comparison is unaffected. -/

/-- Value of one hexadecimal digit character, if it is one. -/
def hexDigitVal (b : Nat) : Option Nat :=
  if 48 ≤ b && b ≤ 57 then some (b - 48)
  else if 65 ≤ b && b ≤ 70 then some (b - 55)
  else if 97 ≤ b && b ≤ 102 then some (b - 87)
  else none

/-- Hexadecimal-digit test. -/
def isHexB (b : Nat) : Bool := (hexDigitVal b).isSome

/-- Accumulate leading hex digits onto `v`, stopping at the first
non-hex character. -/
def hexAccum : List Nat → Int → Int
  | [], v => v
  | c :: t, v =>
    match hexDigitVal c with
    | some d => hexAccum t (v * 16 + d)
    | none => v

/-- Sign factor: `-1` when the (whitespace-stripped) text starts with
`'-'`. -/
def strtolSign (s : List Nat) : Int :=
  match s with
  | c :: _ => if c = 45 then -1 else 1
  | [] => 1

/-- Drop an optional leading `'+'` or `'-'`. -/
def strtolAfterSign (s : List Nat) : List Nat :=
  match s with
  | c :: t => if c = 43 ∨ c = 45 then t else c :: t
  | [] => []

/-- Drop an optional leading `"0x"` / `"0X"` prefix (base 16). -/
def strtolAfterPre (s : List Nat) : List Nat :=
  match s with
  | c0 :: c1 :: t => if c0 = 48 ∧ (c1 = 120 ∨ c1 = 88) then t else c0 :: c1 :: t
  | s => s

/-- `strtol(s, NULL, 16)`. -/
def strtol16 (s : List Nat) : Int :=
  strtolSign (s.dropWhile isspaceB) *
    hexAccum (strtolAfterPre (strtolAfterSign (s.dropWhile isspaceB))) 0

/-! ## RmcParser: `gps_line` (gps_time.c lines 230-313) -/

/-- Byte values of `"GPRMC"`. -/
def GPRMC : List Nat := strBytes "GPRMC"

/-- Loop predicate of the checksum scan: true while `*cp` is not `'*'`. -/
def notStar (b : Nat) : Bool := b != 42

/-- The sentence content before the first `'*'` (what the scan at lines
248-252 XORs over, and what `crack` splits after `*cp = '\0'`). -/
def beforeStar (s : List Nat) : List Nat := s.takeWhile notStar

/-- Whether the scan stopped on a `'*'` (rather than the end of the
string): `*cp == '*'` after the loop. -/
def hasStar (s : List Nat) : Bool := !(s.dropWhile notStar).isEmpty

/-- The text after the first `'*'` (the `cp + 1` handed to `strtol`). -/
def afterStar (s : List Nat) : List Nat := (s.dropWhile notStar).tail

/-- The computed checksum `csum`: XOR of all bytes strictly before the
first `'*'`. -/
def xorBeforeStar (s : List Nat) : Nat := (beforeStar s).foldl Nat.xor 0

/-- Index of the first `'*'` (= length of `beforeStar`). -/
def starPos (s : List Nat) : Nat := (beforeStar s).length

/-- The checksum-validation stage of `gps_line` (lines 248-269) in
isolation: the sentence is accepted when a `'*'` is present and the
declared checksum parsed by `strtol` base 16 equals the accumulated
XOR. -/
def checksumAccepts (s : List Nat) : Bool :=
  hasStar s && (strtol16 (afterStar s) == Int.ofNat (xorBeforeStar s))

/-- Result of `gps_line` on one candidate sentence.  `decoded` carries
the `struct tm` fields filled at lines 292-299 plus the millisecond
value of line 301 (in `tm_sec`-style order: hour, minute, second, day of
month, month (0-based, as `Int` since the C subtracts 1), year (two
digits plus 100), milliseconds).  `mktime`/`settimeofday` are external
collaborators and are not modelled here. -/
inductive Outcome where
  | wrongType
  | malformed
  | checksumMismatch
  | fieldCountMismatch
  | decoded (hour minute second mday : Nat) (mon year : Int) (msec : Nat)
deriving DecidableEq

/-- `gps_line()` on the captured buffer `raw`, which the C code reads as
a C string.  The decode stage reads at fixed offsets inside the field
slices (`args[1] + k`, `args[9] + k`); in this total embedding a slice
is a `List Nat` and an offset beyond the slice yields the empty list
(`List.drop`), whereas the C pointer arithmetic can walk past the
field's NUL terminator — that divergence is exactly the out-of-range
access analysed separately below. -/
def gps_line (raw : List Nat) : Outcome :=
  let s := cstr raw
  if s.take 5 ≠ GPRMC then Outcome.wrongType
  else if hasStar s = false then Outcome.malformed
  else if strtol16 (afterStar s) ≠ Int.ofNat (xorBeforeStar s) then Outcome.checksumMismatch
  else
    let r := crack (beforeStar s) 20
    if r.1 ≠ 13 then Outcome.fieldCountMismatch
    else
      let t := r.2.getD 1 []
      let d := r.2.getD 9 []
      Outcome.decoded (getvalue t 2) (getvalue (t.drop 2) 2) (getvalue (t.drop 4) 2)
        (getvalue d 2) ((getvalue (d.drop 2) 2 : Int) - 1)
        ((getvalue (d.drop 4) 2 : Int) + 100) (getvalue (t.drop 7) 3)

/-- Whether `gps_line` reached the date/time decode stage. -/
def isDecoded : Outcome → Bool
  | Outcome.decoded _ _ _ _ _ _ _ => true
  | _ => false

/-- The time field `args[1]` as extracted by `gps_line`. -/
def timeFieldOf (raw : List Nat) : List Nat :=
  ((crack (beforeStar (cstr raw)) 20).2).getD 1 []

/-- Process-level effect of one `gps_line` call: exit, or return to the
read loop of `main`. -/
inductive ProcAction where
  | exitZero
  | exitFailure
  | continueLoop
deriving DecidableEq

/-- Control flow at the end of `gps_line` (lines 307-313): on a decoded
sentence, `settimeofday` is attempted (its success is the `clockOk`
input, the external collaborator's answer); on success the process calls
`exit(0)`, otherwise `perror` reports the error and the function
returns, continuing the read loop.  Any earlier rejection also simply
returns. -/
def gpsLineAction (raw : List Nat) (clockOk : Bool) : ProcAction :=
  if isDecoded (gps_line raw) then
    if clockOk then ProcAction.exitZero else ProcAction.continueLoop
  else ProcAction.continueLoop

/-- A sample RMC sentence body as captured by the framer (between `'$'`
and the line terminator): the README example with its declared checksum
set to the actual XOR of the body, `0x44`. -/
def sampleRaw : List Nat :=
  strBytes "GPRMC,211321.000,A,5309.7743,N,01204.5576,W,0.17,78.41,200813,,,A*44"

/-- A valid RMC sentence body whose time field `"12"` is shorter than 8
characters (checksum `0x59` is the XOR of the body before `'*'`). -/
def shortTimeRaw : List Nat :=
  strBytes "GPRMC,12,A,1,N,1,W,0,0,200813,,,A*59"

/-- Decimal value of a list of ASCII digit characters (specification
side of the fixed-width decoder's contract). -/
def decimalOf (l : List Nat) : Nat := l.foldl (fun a c => a * 10 + (c - 48)) 0

/-- The accumulator loop of `getvalue` folds exactly over the first `n`
characters of the leading digit run. -/
theorem getvalueGo_eq (s : List Nat) : ∀ (n v : Nat),
    getvalueGo s n v =
      ((s.takeWhile isdigitB).take n).foldl (fun a c => a * 10 + (c - 48)) v := by
  induction s with
  | nil => intro n v; cases n <;> rfl
  | cons c t ih =>
    intro n v
    cases n with
    | zero => rfl
    | succ m =>
      by_cases hc : isdigitB c = true
      · rw [List.takeWhile_cons_of_pos hc, List.take_succ_cons, List.foldl_cons]
        show (if isdigitB c = true then getvalueGo t m (v * 10 + (c - 48)) else v) = _
        rw [if_pos hc]
        exact ih m _
      · rw [List.takeWhile_cons_of_neg hc, List.take_nil, List.foldl_nil]
        show (if isdigitB c = true then getvalueGo t m (v * 10 + (c - 48)) else v) = v
        rw [if_neg hc]

/-- C8: `getvalue` applied to any string and digit count `n` returns the
non-negative integer formed from at most `n` leading ASCII digit
characters, stopping at the first non-digit and yielding the value
accumulated so far (it is total, never an error); in particular the time
field `"123456.789"` decodes to hour 12, minute 34, second 56 and
millisecond 789 (the millisecond read starts at offset 7, skipping the
decimal point at offset 6). -/
theorem c8_getvalue_fixed_width :
    (∀ (s : List Nat) (n : Nat),
        getvalue s n = decimalOf ((s.takeWhile isdigitB).take n)) ∧
    getvalue (strBytes "123456.789") 2 = 12 ∧
    getvalue ((strBytes "123456.789").drop 2) 2 = 34 ∧
    getvalue ((strBytes "123456.789").drop 4) 2 = 56 ∧
    getvalue ((strBytes "123456.789").drop 7) 3 = 789 :=
  ⟨fun s n => getvalueGo_eq s n 0, by decide, by decide, by decide, by decide⟩

/-- C1 (counterexample): on a fully parsed sentence, a failing clock-set
call does not make the process exit — `gps_line` reports via `perror`
and returns, so the read loop continues to the next sentence. -/
theorem c1_clock_failure_counterexample :
    gps_line sampleRaw = Outcome.decoded 21 13 21 20 7 113 0 ∧
    gpsLineAction sampleRaw false = ProcAction.continueLoop ∧
    ProcAction.continueLoop ≠ ProcAction.exitFailure :=
  ⟨by decide, by decide, by decide⟩

/-- C1 (amended): when the clock-set call fails, `gps_line` returns (the
error having been reported by `perror`) and the read loop continues; the
process exits — with status zero — exactly when a sentence is fully
decoded and the clock-set call succeeds. -/
theorem c1_clock_failure_continues (raw : List Nat) :
    gpsLineAction raw false = ProcAction.continueLoop ∧
    (gpsLineAction raw true = ProcAction.exitZero ↔ isDecoded (gps_line raw) = true) := by
  cases h : isDecoded (gps_line raw) <;> simp [gpsLineAction, h]

/-- A `process` call on a byte other than `'$'` from a non-capturing
state emits nothing and stays out of the capturing state. -/
theorem process_no_dollar_step (s : FrSt) (b : Nat) (hs : s.st ≠ ST_CAPTURE)
    (hb : b ≠ 36) :
    (process s b).2 = none ∧ (process s b).1.st ≠ ST_CAPTURE := by
  unfold process
  by_cases hterm : (decide (b = 10) || decide (b = 13)) = true
  · rw [if_pos hterm, if_neg hs]
    exact ⟨rfl, by show ST_WAITDL ≠ ST_CAPTURE; decide⟩
  · rw [if_neg hterm]
    by_cases hdl : s.st = ST_WAITDL
    · rw [if_pos hdl, if_neg hb]
      exact ⟨rfl, by show ST_WAITNL ≠ ST_CAPTURE; decide⟩
    · rw [if_neg hdl, if_pos hs]
      exact ⟨rfl, hs⟩

/-- Run-level form: from a non-capturing state, a `'$'`-free byte
sequence produces no emissions and ends out of the capturing state. -/
theorem runFramer_no_dollar (bytes : List Nat) : ∀ (s : FrSt), s.st ≠ ST_CAPTURE →
    (∀ b ∈ bytes, b ≠ 36) →
    (runFramer bytes s).2 = [] ∧ (runFramer bytes s).1.st ≠ ST_CAPTURE := by
  induction bytes with
  | nil => intro s hs _; exact ⟨rfl, hs⟩
  | cons b rest ih =>
    intro s hs hb
    have hstep := process_no_dollar_step s b hs (hb b (List.mem_cons_self b rest))
    have hrec := ih (process s b).1 hstep.2 (fun x hx => hb x (List.mem_cons_of_mem b hx))
    refine ⟨?_, ?_⟩
    · simp only [runFramer, hstep.1, hrec.1, Option.toList_none, List.nil_append]
    · simp only [runFramer]
      exact hrec.2

/-- C7: starting from the initial framer state, a byte sequence that
contains no `'$'` byte never makes `process` emit a candidate sentence
(`gps_line` is never invoked). -/
theorem c7_no_dollar_no_emission (bytes : List Nat) (h : ∀ b ∈ bytes, b ≠ 36) :
    (runFramer bytes initFr).2 = [] :=
  (runFramer_no_dollar bytes initFr (by decide) h).1

/-- C7 witness: a concrete `'$'`-free byte sequence (CR, two letters,
LF) produces no emission. -/
theorem c7_no_dollar_no_emission_witness :
    (runFramer [13, 71, 80, 10] initFr).2 = [] :=
  c7_no_dollar_no_emission [13, 71, 80, 10] (by decide)

/-- One `process` call preserves "the capture buffer holds no line
terminator", and any sentence it emits holds no line terminator. -/
theorem process_buf_no_term (s : FrSt) (ch : Nat)
    (hinv : ∀ b ∈ s.buf, b ≠ 10 ∧ b ≠ 13) :
    (∀ b ∈ (process s ch).1.buf, b ≠ 10 ∧ b ≠ 13) ∧
    (∀ out, (process s ch).2 = some out → ∀ b ∈ out, b ≠ 10 ∧ b ≠ 13) := by
  unfold process
  by_cases hterm : (decide (ch = 10) || decide (ch = 13)) = true
  · rw [if_pos hterm]
    by_cases hcap : s.st = ST_CAPTURE
    · rw [if_pos hcap]
      refine ⟨hinv, ?_⟩
      intro out hout
      cases hout
      exact hinv
    · rw [if_neg hcap]
      exact ⟨hinv, fun out hout => by cases hout⟩
  · rw [if_neg hterm]
    have hch : ch ≠ 10 ∧ ch ≠ 13 := by simpa using hterm
    by_cases hdl : s.st = ST_WAITDL
    · rw [if_pos hdl]
      by_cases hds : ch = 36
      · rw [if_pos hds]
        exact ⟨fun b hb => absurd hb (List.not_mem_nil b), fun out hout => by cases hout⟩
      · rw [if_neg hds]
        exact ⟨fun b hb => absurd hb (List.not_mem_nil b), fun out hout => by cases hout⟩
    · rw [if_neg hdl]
      by_cases hnc : s.st ≠ ST_CAPTURE
      · rw [if_pos hnc]
        exact ⟨hinv, fun out hout => by cases hout⟩
      · rw [if_neg hnc]
        by_cases hlen : BUFFER_SIZE - 2 ≤ s.buf.length
        · rw [if_pos hlen]
          exact ⟨hinv, fun out hout => by cases hout⟩
        · rw [if_neg hlen]
          refine ⟨?_, fun out hout => by cases hout⟩
          intro b hb
          rcases List.mem_append.mp hb with h | h
          · exact hinv b h
          · rcases List.mem_singleton.mp h with rfl
            exact hch

/-- Run-level invariant for C10. -/
theorem runFramer_no_term (bytes : List Nat) : ∀ (s : FrSt),
    (∀ b ∈ s.buf, b ≠ 10 ∧ b ≠ 13) →
    ∀ out ∈ (runFramer bytes s).2, ∀ b ∈ out, b ≠ 10 ∧ b ≠ 13 := by
  induction bytes with
  | nil => intro s _ out hout; cases hout
  | cons c rest ih =>
    intro s hinv out hout
    have hstep := process_buf_no_term s c hinv
    simp only [runFramer, List.mem_append] at hout
    rcases hout with h | h
    · rcases hemit : (process s c).2 with _ | emitted
      · rw [hemit] at h; cases h
      · rw [hemit] at h
        rcases List.mem_singleton.mp h with rfl
        exact hstep.2 out hemit
    · exact ih (process s c).1 hstep.1 out h

/-- C10: every candidate sentence the framer emits to the parser
contains no line-terminator byte (`'\r'` or `'\n'`): a terminator always
ends the capture before it could be appended. -/
theorem c10_no_terminator_in_emitted (bytes : List Nat) (out : List Nat) (b : Nat)
    (hout : out ∈ (runFramer bytes initFr).2) (hb : b ∈ out) :
    b ≠ 10 ∧ b ≠ 13 :=
  runFramer_no_term bytes initFr (by intro x hx; cases hx) out hout b hb

/-- C10 witness: the input `"\n$GP\r"` emits the sentence `"GP"`, whose
byte 71 is not a terminator. -/
theorem c10_no_terminator_in_emitted_witness : (71 : Nat) ≠ 10 ∧ (71 : Nat) ≠ 13 :=
  c10_no_terminator_in_emitted [10, 36, 71, 80, 13] [71, 80] 71 (by decide) (by decide)

/-- From a non-capturing state, the emissions of the framer do not
depend on the leftover buffer content: a dropped sentence-in-progress
can never be emitted later (the buffer is cleared before any new
capture begins). -/
theorem runFramer_buf_irrel (bytes : List Nat) : ∀ (st : Nat) (b1 b2 : List Nat),
    st ≠ ST_CAPTURE →
    (runFramer bytes ⟨st, b1⟩).2 = (runFramer bytes ⟨st, b2⟩).2 := by
  induction bytes with
  | nil => intro st b1 b2 _; rfl
  | cons c rest ih =>
    intro st b1 b2 hst
    show ((process ⟨st, b1⟩ c).2.toList ++ (runFramer rest (process ⟨st, b1⟩ c).1).2)
       = ((process ⟨st, b2⟩ c).2.toList ++ (runFramer rest (process ⟨st, b2⟩ c).1).2)
    by_cases hterm : (decide (c = 10) || decide (c = 13)) = true
    · have h1 : ∀ b : List Nat, process ⟨st, b⟩ c = (⟨ST_WAITDL, b⟩, none) := by
        intro b
        simp only [process, if_pos hterm, if_neg hst]
      rw [h1 b1, h1 b2]
      simpa using ih ST_WAITDL b1 b2 (by decide)
    · by_cases hdl : st = ST_WAITDL
      · by_cases hds : c = 36
        · have h1 : ∀ b : List Nat, process ⟨st, b⟩ c = (⟨ST_CAPTURE, []⟩, none) := by
            intro b
            simp [process, hterm, hdl, hds]
          rw [h1 b1, h1 b2]
        · have h1 : ∀ b : List Nat, process ⟨st, b⟩ c = (⟨ST_WAITNL, []⟩, none) := by
            intro b
            simp [process, hterm, hdl, hds]
          rw [h1 b1, h1 b2]
      · have h1 : ∀ b : List Nat, process ⟨st, b⟩ c = (⟨st, b⟩, none) := by
          intro b
          simp only [process, if_neg hterm, if_neg hdl, if_pos hst]
        rw [h1 b1, h1 b2]
        simpa using ih st b1 b2 hst

set_option maxRecDepth 4000 in
/-- C6 (counterexample): with the capture buffer holding 510 bytes —
strictly below the claimed 512-byte maximum — a further non-terminator
byte is not appended: the in-progress sentence is discarded and the
framer transitions to waiting for a line end. -/
theorem c6_overflow_counterexample :
    process ⟨ST_CAPTURE, List.replicate 510 65⟩ 66
      = (⟨ST_WAITNL, List.replicate 510 65⟩, none) ∧
    (List.replicate 510 65 : List Nat).length < 512 :=
  ⟨rfl, by decide⟩

/-- C6 (amended): the capture limit is `BUFFER_SIZE - 2 = 510` bytes,
not 512: while capturing, a non-terminator byte is appended exactly when
the buffer length is below 510; once it has reached 510, the in-progress
sentence is discarded (its bytes can never influence later emissions, so
it is never emitted, even truncated) and the framer transitions to
`ST_WAITNL` (waiting for a line end). -/
theorem c6_overflow_amended (s : FrSt) (ch : Nat) (h10 : ch ≠ 10) (h13 : ch ≠ 13)
    (hcap : s.st = ST_CAPTURE) :
    (s.buf.length < BUFFER_SIZE - 2 →
       process s ch = (⟨ST_CAPTURE, s.buf ++ [ch]⟩, none)) ∧
    (BUFFER_SIZE - 2 ≤ s.buf.length →
       process s ch = (⟨ST_WAITNL, s.buf⟩, none) ∧
       ∀ (bytes buf2 : List Nat),
         (runFramer bytes ⟨ST_WAITNL, s.buf⟩).2 = (runFramer bytes ⟨ST_WAITNL, buf2⟩).2) := by
  have hterm : ¬ (decide (ch = 10) || decide (ch = 13)) = true := by simp [h10, h13]
  have hdl : s.st ≠ ST_WAITDL := by rw [hcap]; decide
  have hnc : ¬ s.st ≠ ST_CAPTURE := by simp [hcap]
  constructor
  · intro hlen
    unfold process
    rw [if_neg hterm, if_neg hdl, if_neg hnc, if_neg (by omega)]
  · intro hlen
    refine ⟨?_, ?_⟩
    · unfold process
      rw [if_neg hterm, if_neg hdl, if_neg hnc, if_pos hlen]
    · intro bytes buf2
      exact runFramer_buf_irrel bytes ST_WAITNL s.buf buf2 (by decide)

/-- C6 witness: from a capturing state with a one-byte buffer, a
non-terminator byte is appended. -/
theorem c6_overflow_amended_witness :
    process ⟨ST_CAPTURE, [65]⟩ 66 = (⟨ST_CAPTURE, [65, 66]⟩, none) :=
  (c6_overflow_amended ⟨ST_CAPTURE, [65]⟩ 66 (by decide) (by decide) rfl).1 (by decide)

/-- Count/field-list relation for the `crack` loop: starting at
iteration `n` with `fuel` iterations left, the returned count is at most
`n + fuel + 1`, and whenever it is at most `n + fuel` (i.e. the
`maxargs` cap was not hit) it equals `n` plus the number of fields
stored. -/
theorem crackGo_count (fuel : Nat) : ∀ (s : List Nat) (n : Nat),
    (crackGo s n fuel).1 ≤ n + fuel + 1 ∧
    ((crackGo s n fuel).1 ≤ n + fuel →
      (crackGo s n fuel).1 = n + (crackGo s n fuel).2.length) := by
  induction fuel with
  | zero =>
    intro s n
    refine ⟨Nat.le_refl _, ?_⟩
    intro h
    exact absurd h (by dsimp [crackGo]; omega)
  | succ m ih =>
    intro s n
    simp only [crackGo]
    split
    · dsimp only
      exact ⟨by omega, fun _ => by simp⟩
    · split
      · dsimp only
        exact ⟨by omega, fun _ => by simp⟩
      · split
        · dsimp only
          exact ⟨by omega, fun _ => by simp⟩
        · rename_i rest hrest hne
          have hq := ih rest (n + 1)
          dsimp only
          constructor
          · omega
          · intro h
            have h2 := hq.2 (by omega)
            simp only [List.length_cons]
            omega

/-- C4 (counterexample): an input with 21 one-character fields makes
`crack` with `maxargs = 20` return 21, exceeding the configured maximum
of 20 (the `for` loop exits with `n = maxargs` and `return (n + 1)`
executes). -/
theorem c4_field_cap_counterexample :
    (crack (strBytes "0,1,2,3,4,5,6,7,8,9,0,1,2,3,4,5,6,7,8,9,0") 20).1 = 21 ∧
    ¬ (crack (strBytes "0,1,2,3,4,5,6,7,8,9,0,1,2,3,4,5,6,7,8,9,0") 20).1 ≤ 20 :=
  ⟨by decide, by decide⟩

/-- C4 (amended): `crack` with `maxargs = 20` returns a count that never
exceeds 21 (one more than the configured maximum: when the input holds
more than 20 fields the loop exits with `maxargs` iterations done and
returns `maxargs + 1`); whenever the count is at most 20 it is the exact
number of fields found; an empty (or null) input yields zero fields. -/
theorem c4_field_count_amended (s : List Nat) :
    (crack s 20).1 ≤ 21 ∧
    ((crack s 20).1 ≤ 20 → (crack s 20).1 = (crack s 20).2.length) ∧
    (s = [] → (crack s 20).1 = 0) := by
  unfold crack
  by_cases hs : s.isEmpty
  · rw [if_pos hs]
    exact ⟨by omega, fun _ => by simp, fun _ => rfl⟩
  · rw [if_neg hs]
    have h := crackGo_count 20 s 0
    refine ⟨by have := h.1; omega, ?_, ?_⟩
    · intro hle
      have h2 := h.2 (by omega)
      omega
    · intro he
      rw [he] at hs
      exact absurd rfl hs

/-- C4 witness: on `"a,b"` the count equals the number of fields found
(two), and the empty input yields zero fields. -/
theorem c4_field_count_amended_witness :
    ((crack (strBytes "a,b") 20).1 = (crack (strBytes "a,b") 20).2.length) ∧
    (crack ([] : List Nat) 20).1 = 0 :=
  ⟨(c4_field_count_amended (strBytes "a,b")).2.1 (by decide),
   (c4_field_count_amended []).2.2 rfl⟩

/-- C2 (counterexample): the sample sentence is accepted (fully decoded)
although its checksum-stripped body splits into only 12 comma-separated
fields after the sentence word (it has 12 commas): the code requires 13
fields counting the sentence word itself, so a body with 13 fields after
the word would be rejected. -/
theorem c2_field_count_counterexample :
    isDecoded (gps_line sampleRaw) = true ∧
    (beforeStar (cstr sampleRaw)).count 44 = 12 ∧ (12 : Nat) ≠ 13 :=
  ⟨by decide, by decide, by decide⟩

/-- C2 (amended): for a candidate sentence passing the prefix and
checksum checks, `gps_line` proceeds to date/time decoding exactly when
`crack` splits the checksum-stripped body into 13 fields counting the
sentence word itself — that is, 12 comma-separated fields after the
sentence word; bodies splitting into 12 or 14 total fields (11 or 13
after the word) are rejected. -/
theorem c2_field_count_iff (raw : List Nat)
    (hpre : (cstr raw).take 5 = GPRMC)
    (hstar : hasStar (cstr raw) = true)
    (hsum : strtol16 (afterStar (cstr raw)) = Int.ofNat (xorBeforeStar (cstr raw))) :
    isDecoded (gps_line raw) = true ↔ (crack (beforeStar (cstr raw)) 20).1 = 13 := by
  simp only [gps_line]
  rw [if_neg (fun h => h hpre), if_neg (by simp [hstar]), if_neg (fun h => h hsum)]
  by_cases hc : (crack (beforeStar (cstr raw)) 20).1 = 13
  · rw [if_neg (not_not_intro hc)]
    simp [hc, isDecoded]
  · rw [if_pos hc]
    simp [hc, isDecoded]

/-- C2 witness: the amended equivalence evaluated on the sample
sentence, whose prefix and checksum checks pass concretely. -/
theorem c2_field_count_iff_witness :
    isDecoded (gps_line sampleRaw) = true ↔
      (crack (beforeStar (cstr sampleRaw)) 20).1 = 13 :=
  c2_field_count_iff sampleRaw (by decide) (by decide) (by decide)

/-- C9: the date/time decoder applies fixed offsets without checking
field lengths: for every sentence that passes the prefix, checksum and
13-field checks but whose time field `args[1]` is shorter than 8
characters, the first position read by the millisecond decode
`getvalue(args[1] + 7, 3)` lies past the end of the field slice — in
this total embedding the indexed access yields `none`. -/
theorem c9_short_time_field_oob (raw : List Nat)
    (_hdec : isDecoded (gps_line raw) = true)
    (hshort : (timeFieldOf raw).length < 8) :
    (timeFieldOf raw).get? 7 = none :=
  List.get?_eq_none.mpr (by omega)

/-- C9 witness: a concrete valid sentence whose time field `"12"` has
fewer than 8 characters; it passes all checks and the millisecond read
position is out of range. -/
theorem c9_short_time_field_oob_witness : (timeFieldOf shortTimeRaw).get? 7 = none :=
  c9_short_time_field_oob shortTimeRaw (by decide) (by decide)

/-- Value formed from exactly the first two hex digits of a checksum
text, as the claim words it (specification-side definition). -/
def twoHexVal (l : List Nat) : Nat :=
  ((hexDigitVal (l.getD 0 0)).getD 0) * 16 + (hexDigitVal (l.getD 1 0)).getD 0

/-- Absence of a strtol base-16 `0x`/`0X` prefix. -/
def no0x (s : List Nat) : Bool :=
  match s with
  | c0 :: c1 :: _ => !(decide (c0 = 48) && (decide (c1 = 120) || decide (c1 = 88)))
  | _ => true

/-- C5 (counterexample): on the body `"GPRMCK*001"` (whose XOR before
`'*'` is 0) the code parses the declared checksum with `strtol`, which
consumes all three hex digits `"001"` and yields 1, not the two-digit
value 0; the sentence is therefore rejected, although under the claim's
"exactly two hex digits" reading the declared checksum would be 0 and
the sentence would be accepted. -/
theorem c5_two_digit_counterexample :
    afterStar (strBytes "GPRMCK*001") = strBytes "001" ∧
    xorBeforeStar (strBytes "GPRMCK*001") = 0 ∧
    twoHexVal (strBytes "001") = 0 ∧
    strtol16 (strBytes "001") = 1 ∧
    checksumAccepts (strBytes "GPRMCK*001") = false :=
  ⟨by decide, by decide, by decide, by decide, by decide⟩

/-- `hexAccum` stops at the first non-hex character: it computes the
same value on a string and on its maximal leading run of hex digits. -/
theorem hexAccum_takeWhile (l : List Nat) : ∀ v : Int,
    hexAccum l v = hexAccum (l.takeWhile isHexB) v := by
  induction l with
  | nil => intro v; rfl
  | cons c t ih =>
    intro v
    rcases hd : hexDigitVal c with _ | d
    · rw [List.takeWhile_cons_of_neg (by simp [isHexB, hd])]
      simp only [hexAccum, hd]
    · rw [List.takeWhile_cons_of_pos (by simp [isHexB, hd])]
      simp only [hexAccum, hd]
      exact ih _

/-- C5 (amended): the declared checksum is parsed by `strtol` base 16,
which is not limited to two digits: whenever the text after `'*'` starts
with a hex digit and carries no `0x`/`0X` prefix, the parsed value is
that of the maximal leading run of hex digits (case-insensitive),
parsing stopping at the first non-hex character, whose trailing text is
ignored. -/
theorem c5_strtol_amended (s : List Nat)
    (h1 : isHexB (s.headD 0) = true) (h2 : no0x s = true) :
    strtol16 s = hexAccum (s.takeWhile isHexB) 0 := by
  rcases s with _ | ⟨c, t⟩
  · exact absurd h1 (by decide)
  · have hc : isHexB c = true := h1
    have hrange : 48 ≤ c ∧ c ≤ 57 ∨ 65 ≤ c ∧ c ≤ 70 ∨ 97 ≤ c ∧ c ≤ 102 := by
      simp only [isHexB, hexDigitVal] at hc
      split_ifs at hc with ha hb hcc
      · exact Or.inl (by simpa using ha)
      · exact Or.inr (Or.inl (by simpa using hb))
      · exact Or.inr (Or.inr (by simpa using hcc))
      · simp at hc
    have hcs : isspaceB c = false := by
      simp only [isspaceB, Bool.or_eq_false_iff, decide_eq_false_iff_not]
      omega
    have hdw : (c :: t).dropWhile isspaceB = c :: t :=
      List.dropWhile_cons_of_neg (by simp [hcs])
    unfold strtol16
    rw [hdw]
    have hsg : strtolSign (c :: t) = 1 := by
      show (if c = 45 then (-1 : Int) else 1) = 1
      rw [if_neg (by omega)]
    have has : strtolAfterSign (c :: t) = c :: t := by
      show (if c = 43 ∨ c = 45 then t else c :: t) = c :: t
      rw [if_neg (by omega)]
    rw [hsg, has, one_mul]
    have hap : strtolAfterPre (c :: t) = c :: t := by
      rcases t with _ | ⟨c1, t1⟩
      · rfl
      · show (if c = 48 ∧ (c1 = 120 ∨ c1 = 88) then t1 else c :: c1 :: t1) = c :: c1 :: t1
        have h3 : ¬c = 48 ∨ ¬c1 = 120 ∧ ¬c1 = 88 := by simpa [no0x] using h2
        rw [if_neg (by omega)]
    rw [hap]
    exact hexAccum_takeWhile (c :: t) 0

/-- C5 witness: on the text `"4e1Z"`, strtol consumes the maximal hex
run `"4e1"` (three digits, lowercase included). -/
theorem c5_strtol_amended_witness :
    strtol16 (strBytes "4e1Z") = hexAccum ((strBytes "4e1Z").takeWhile isHexB) 0 :=
  c5_strtol_amended (strBytes "4e1Z") (by decide) (by decide)

/-- Setting an element inside the `takeWhile` region, with a value that
keeps the predicate, sets it inside the taken prefix. -/
theorem takeWhile_set (p : Nat → Bool) (c : Nat) :
    ∀ (l : List Nat) (i : Nat), i < (l.takeWhile p).length → p c = true →
    (l.set i c).takeWhile p = (l.takeWhile p).set i c := by
  intro l
  induction l with
  | nil => intro i h _; simp at h
  | cons a t ih =>
    intro i h hc
    by_cases ha : p a = true
    · rw [List.takeWhile_cons_of_pos ha] at h ⊢
      cases i with
      | zero =>
        rw [List.set_cons_zero, List.set_cons_zero, List.takeWhile_cons_of_pos hc]
      | succ k =>
        rw [List.set_cons_succ, List.set_cons_succ, List.takeWhile_cons_of_pos ha,
          ih k (by simpa using h) hc]
    · rw [List.takeWhile_cons_of_neg ha] at h
      simp at h

/-- Setting an element inside the `takeWhile` region, with a value that
keeps the predicate, leaves the `dropWhile` part unchanged. -/
theorem dropWhile_set (p : Nat → Bool) (c : Nat) :
    ∀ (l : List Nat) (i : Nat), i < (l.takeWhile p).length → p c = true →
    (l.set i c).dropWhile p = l.dropWhile p := by
  intro l
  induction l with
  | nil => intro i h _; simp at h
  | cons a t ih =>
    intro i h hc
    by_cases ha : p a = true
    · rw [List.takeWhile_cons_of_pos ha] at h
      cases i with
      | zero =>
        rw [List.set_cons_zero, List.dropWhile_cons_of_pos hc,
          List.dropWhile_cons_of_pos ha]
      | succ k =>
        rw [List.set_cons_succ, List.dropWhile_cons_of_pos ha,
          List.dropWhile_cons_of_pos ha, ih k (by simpa using h) hc]
    · rw [List.takeWhile_cons_of_neg ha] at h
      simp at h

/-- Inside the taken prefix, `takeWhile` preserves element reads. -/
theorem takeWhile_getD (p : Nat → Bool) :
    ∀ (l : List Nat) (i : Nat), i < (l.takeWhile p).length →
    (l.takeWhile p).getD i 0 = l.getD i 0 := by
  intro l
  induction l with
  | nil => intro i h; simp at h
  | cons a t ih =>
    intro i h
    by_cases ha : p a = true
    · rw [List.takeWhile_cons_of_pos ha] at h ⊢
      cases i with
      | zero => rfl
      | succ k =>
        rw [List.getD_cons_succ, List.getD_cons_succ]
        exact ih k (by simpa using h)
    · rw [List.takeWhile_cons_of_neg ha] at h
      simp at h

/-- XOR-cancellation. -/
theorem xor_xor_cancel (x y : Nat) : (x ^^^ y) ^^^ x = y := by
  rw [Nat.xor_comm x y, Nat.xor_assoc, Nat.xor_self, Nat.xor_zero]

/-- XOR left-commutativity (for AC normalization). -/
theorem xor_left_comm (a b c : Nat) : a ^^^ (b ^^^ c) = b ^^^ (a ^^^ c) := by
  rw [← Nat.xor_assoc, Nat.xor_comm a b, Nat.xor_assoc]

/-- XOR left-cancellation. -/
theorem xor_cancel_left (a b : Nat) : a ^^^ (a ^^^ b) = b := by
  rw [← Nat.xor_assoc, Nat.xor_self, Nat.zero_xor]

/-- Pulling the accumulator out of an XOR fold. -/
theorem foldl_xor_acc (l : List Nat) : ∀ a : Nat,
    l.foldl Nat.xor a = a ^^^ l.foldl Nat.xor 0 := by
  induction l with
  | nil => intro a; simp
  | cons c t ih =>
    intro a
    simp only [List.foldl_cons]
    rw [ih (Nat.xor a c), ih (Nat.xor 0 c)]
    show a ^^^ c ^^^ _ = a ^^^ (0 ^^^ c ^^^ _)
    rw [Nat.zero_xor, Nat.xor_assoc]

/-- Effect of a single element update on an XOR fold. -/
theorem foldl_xor_set (c : Nat) : ∀ (l : List Nat) (i : Nat), i < l.length →
    (l.set i c).foldl Nat.xor 0 = ((l.foldl Nat.xor 0) ^^^ (l.getD i 0)) ^^^ c := by
  intro l
  induction l with
  | nil => intro i h; simp at h
  | cons a t ih =>
    intro i h
    have hz : ∀ n : Nat, Nat.xor 0 n = n := fun n => Nat.zero_xor n
    cases i with
    | zero =>
      rw [List.set_cons_zero]
      simp only [List.foldl_cons, List.getD_cons_zero]
      rw [foldl_xor_acc t (Nat.xor 0 c), foldl_xor_acc t (Nat.xor 0 a)]
      simp only [hz]
      simp [Nat.xor_assoc, Nat.xor_comm, xor_left_comm, xor_cancel_left,
        Nat.xor_self, Nat.xor_zero, Nat.zero_xor]
    | succ k =>
      rw [List.set_cons_succ]
      simp only [List.foldl_cons, List.getD_cons_succ]
      rw [foldl_xor_acc (t.set k c) (Nat.xor 0 a), foldl_xor_acc t (Nat.xor 0 a),
        ih k (by simpa using h)]
      simp only [hz]
      simp [Nat.xor_assoc, Nat.xor_comm, xor_left_comm, xor_cancel_left,
        Nat.xor_self, Nat.xor_zero, Nat.zero_xor]

/-- C3 (counterexample): the body `"GPRMCKj00*6A"` is accepted (XOR of
`"GPRMCKj00"` is `0x6A`, the declared checksum).  Flipping bit 6 of the
character at index 6 — the `'j'`, which is strictly before the first
`'*'` — turns it into `'*'` itself, yielding `"GPRMCK*00*6A"` with all
checksum-text bytes unchanged; the flipped body is still accepted,
because the XOR of `"GPRMCK"` is 0 and `strtol` parses the new checksum
text `"00*6A"` as 0. -/
theorem c3_bitflip_counterexample :
    checksumAccepts (strBytes "GPRMCKj00*6A") = true ∧
    (strBytes "GPRMCKj00*6A").set 6
        (((strBytes "GPRMCKj00*6A").getD 6 0) ^^^ (1 <<< 6))
      = strBytes "GPRMCK*00*6A" ∧
    6 < starPos (strBytes "GPRMCKj00*6A") ∧
    checksumAccepts (strBytes "GPRMCK*00*6A") = true :=
  ⟨by decide, by decide, by decide, by decide⟩

/-- C3 (amended): whenever the XOR of all characters strictly before the
first `'*'` equals the value `strtol` parses after the `'*'`, the
checksum stage accepts; and for every such accepted body, flipping any
single bit of any character before the `'*'` — provided the flipped
character does not itself become `'*'` (which would move the first `'*'`
and re-anchor the parse, as the counterexample shows) — while leaving
the checksum text unchanged causes the sentence to be rejected. -/
theorem c3_checksum_amended :
    (∀ s : List Nat, hasStar s = true →
       strtol16 (afterStar s) = Int.ofNat (xorBeforeStar s) →
       checksumAccepts s = true) ∧
    (∀ (s : List Nat) (i j : Nat), checksumAccepts s = true → i < starPos s →
       j < 8 → (s.getD i 0) ^^^ (1 <<< j) ≠ 42 →
       checksumAccepts (s.set i ((s.getD i 0) ^^^ (1 <<< j))) = false) := by
  constructor
  · intro s hst hsum
    simp [checksumAccepts, hst, hsum]
  · intro s i j hacc hi hj hne
    simp only [checksumAccepts, Bool.and_eq_true, beq_iff_eq] at hacc
    obtain ⟨hstar, hsum⟩ := hacc
    have hcb : notStar ((s.getD i 0) ^^^ (1 <<< j)) = true := by
      simp only [notStar, bne_iff_ne, ne_eq]
      exact hne
    have hi' : i < (s.takeWhile notStar).length := hi
    have hbs : beforeStar (s.set i ((s.getD i 0) ^^^ (1 <<< j)))
        = (beforeStar s).set i ((s.getD i 0) ^^^ (1 <<< j)) :=
      takeWhile_set notStar _ s i hi' hcb
    have hds : (s.set i ((s.getD i 0) ^^^ (1 <<< j))).dropWhile notStar
        = s.dropWhile notStar :=
      dropWhile_set notStar _ s i hi' hcb
    have has2 : afterStar (s.set i ((s.getD i 0) ^^^ (1 <<< j))) = afterStar s := by
      unfold afterStar
      rw [hds]
    have hstar2 : hasStar (s.set i ((s.getD i 0) ^^^ (1 <<< j))) = true := by
      unfold hasStar at hstar ⊢
      rw [hds]
      exact hstar
    have hlen : i < (beforeStar s).length := hi
    have hgd : (beforeStar s).getD i 0 = s.getD i 0 := takeWhile_getD notStar s i hi'
    have hxor : xorBeforeStar (s.set i ((s.getD i 0) ^^^ (1 <<< j)))
        = (xorBeforeStar s) ^^^ (1 <<< j) := by
      unfold xorBeforeStar
      rw [hbs, foldl_xor_set _ (beforeStar s) i hlen, hgd]
      rw [Nat.xor_assoc, ← Nat.xor_assoc (s.getD i 0) (s.getD i 0) (1 <<< j),
        Nat.xor_self, Nat.zero_xor]
    have hm : (1 <<< j) ≠ 0 := by
      rw [Nat.one_shiftLeft]
      exact (Nat.pow_pos (by omega)).ne'
    simp only [checksumAccepts, hstar2, has2, hxor, hsum, Bool.true_and]
    simp only [beq_eq_false_iff_ne, ne_eq, Int.ofNat.injEq]
    intro hcon
    apply hm
    have h0 : (1 <<< j) = ((xorBeforeStar s) ^^^ (1 <<< j)) ^^^ (xorBeforeStar s) :=
      (xor_xor_cancel _ _).symm
    rw [← hcon, Nat.xor_self] at h0
    exact h0

/-- C3 witness: applying both amended parts at concrete inputs — the
body `"GPRMCKj00*6A"` is accepted, and flipping bit 0 of its first
character (`'G'`, before the `'*'`, not becoming `'*'`) is rejected. -/
theorem c3_checksum_amended_witness :
    checksumAccepts (strBytes "GPRMCKj00*6A") = true ∧
    checksumAccepts ((strBytes "GPRMCKj00*6A").set 0
      (((strBytes "GPRMCKj00*6A").getD 0 0) ^^^ (1 <<< 0))) = false :=
  ⟨c3_checksum_amended.1 (strBytes "GPRMCKj00*6A") (by decide) (by decide),
   c3_checksum_amended.2 (strBytes "GPRMCKj00*6A") 0 0 (by decide) (by decide)
     (by decide) (by decide)⟩

end GpsTime
